import Mathlib

/-!
Shallow embedding of `src/skagent/algos/maliar.py` (with the parts of
`src/skagent/ann.py` that `maliar_training_loop` touches), together with
theorems settling the frozen claims about this code.

Modelling conventions:
* Python floats / ints are modelled symbolically by `Num`: a finite rational,
  NaN, +inf or -inf.  Arithmetic on `Num` follows the IEEE propagation rules
  the source relies on (NaN absorbs, inf + -inf = NaN, inf * 0 = NaN).
* A runtime value (`Value`) is a plain scalar, a torch tensor or a numpy
  array, each carrying its entries as a list of `Num`.  `isinstance`
  dispatch in the source becomes constructor dispatch.
* A Python dict of named values is an association list `Env`; `dict` lookup
  is first-match lookup (`alookup`).  The dict-merge operator `a | b`
  (right operand wins) is `Env.pyUnion`.  `dict(zip(ks, vs))` is `dictZip`
  (for duplicate keys the later pair wins, as in Python).
* Fallible Python code (KeyError, IndexError, `raise Exception`) returns
  `Except Err _`.
* The `Block` object is an external collaborator: its `transition` method,
  reward-ownership dict, shock names, control names and `dynamics` entries
  are fields of a `Block` structure; `transition` itself stays abstract.
* CPython iterates a `set` of strings in a hash-dependent order that is
  randomized per process (PYTHONHASHSEED), so the set comprehension used to
  pick the reward symbol is modelled by an explicit enumeration function
  `setOrder`; the theorems only assume it permutes its input.
* torch's global random generator is explicit state (`RngState`), and
  `torch.manual_seed` overwrites it with a state derived from the seed;
  weight initialization and the Adam optimizer are external oracles passed
  in as functions.
-/

namespace SkAgent

/-- An IEEE-style scalar: a finite rational, NaN, or a signed infinity. -/
inductive Num where
  | fin (q : ℚ)
  | nan
  | inf
  | ninf
deriving DecidableEq

/-- NaN test, as performed by `torch.isnan` / `np.isnan` entrywise. -/
def Num.isNan : Num → Bool
  | .nan => true
  | _ => false

/-- Addition with IEEE propagation (NaN absorbs; inf + -inf = NaN). -/
def Num.add : Num → Num → Num
  | .nan, _ => .nan
  | _, .nan => .nan
  | .inf, .ninf => .nan
  | .ninf, .inf => .nan
  | .inf, _ => .inf
  | _, .inf => .inf
  | .ninf, _ => .ninf
  | _, .ninf => .ninf
  | .fin a, .fin b => .fin (a + b)

/-- Multiplication by a finite rational (the discount factor power),
with IEEE propagation (inf * 0 = NaN). -/
def Num.mulQ : Num → ℚ → Num
  | .fin a, c => .fin (a * c)
  | .nan, _ => .nan
  | .inf, c => if 0 < c then .inf else if c < 0 then .ninf else .nan
  | .ninf, c => if 0 < c then .ninf else if c < 0 then .inf else .nan

/-- Negation. -/
def Num.neg : Num → Num
  | .fin a => .fin (-a)
  | .nan => .nan
  | .inf => .ninf
  | .ninf => .inf

/-- A runtime value: a plain Python scalar, a `torch.Tensor`, or a
`np.ndarray` (entries listed in order). -/
inductive Value where
  | scalar (x : Num)
  | torchT (xs : List Num)
  | npA (xs : List Num)
deriving DecidableEq

/-- Entrywise multiplication by a rational scalar (`value * discount ** t`). -/
def Value.scale : Value → ℚ → Value
  | .scalar x, c => .scalar (x.mulQ c)
  | .torchT xs, c => .torchT (xs.map (fun x => x.mulQ c))
  | .npA xs, c => .npA (xs.map (fun x => x.mulQ c))

/-- Broadcasting addition (`total += ...`): scalars broadcast over
tensors/arrays; same-shape containers add entrywise; a torch tensor
meeting a numpy array yields a tensor.  Shape mismatches are out of
scope (the claims only exercise matching shapes). -/
def Value.add : Value → Value → Value
  | .scalar a, .scalar b => .scalar (a.add b)
  | .scalar a, .torchT ys => .torchT (ys.map (fun y => a.add y))
  | .scalar a, .npA ys => .npA (ys.map (fun y => a.add y))
  | .torchT xs, .scalar b => .torchT (xs.map (fun x => x.add b))
  | .npA xs, .scalar b => .npA (xs.map (fun x => x.add b))
  | .torchT xs, .torchT ys => .torchT (List.zipWith Num.add xs ys)
  | .npA xs, .npA ys => .npA (List.zipWith Num.add xs ys)
  | .torchT xs, .npA ys => .torchT (List.zipWith Num.add xs ys)
  | .npA xs, .torchT ys => .torchT (List.zipWith Num.add xs ys)

/-- Entrywise negation (`-edlr`). -/
def Value.neg : Value → Value
  | .scalar x => .scalar x.neg
  | .torchT xs => .torchT (xs.map Num.neg)
  | .npA xs => .npA (xs.map Num.neg)

/-- The check `isinstance(x, torch.Tensor) and torch.any(torch.isnan(x))`. -/
def torchNanCheck : Value → Bool
  | .torchT xs => xs.any Num.isNan
  | _ => false

/-- The check `isinstance(x, np.ndarray) and np.any(np.isnan(x))`. -/
def npNanCheck : Value → Bool
  | .npA xs => xs.any Num.isNan
  | _ => false

/-- A named-value environment: a Python dict from symbols to values. -/
abbrev Env : Type := List (String × Value)

/-- First-match association-list lookup (Python dict lookup; the symbol
lists fed to it come from dict keys, which are unique). -/
def alookup {β : Type} : List (String × β) → String → Option β
  | [], _ => none
  | (k, v) :: rest, key => if k = key then some v else alookup rest key

/-- Dict lookup on an `Env`. -/
abbrev Env.get (e : Env) (k : String) : Option Value := alookup e k

/-- Python's dict-merge `a | b`: keys of `a` first (values overridden by
`b` where present), then the keys of `b` not in `a`.  The right operand
wins on conflicts. -/
def Env.pyUnion (a b : Env) : Env :=
  a.map (fun p => (p.1, (Env.get b p.1).getD p.2)) ++
    b.filter (fun p => (Env.get a p.1).isNone)

/-- Python's `dict(zip(ks, vs))`: `zip` truncates to the shorter list and
for duplicate keys the later pair wins, hence the `reverse` under the
first-match lookup. -/
def dictZip (ks : List String) (vs : List Value) : Env :=
  (ks.zip vs).reverse

/-- The error outcomes of the embedded code. -/
inductive Err where
  | keyError (sym : String)
  | indexError
  | unsupportedDiscount
  | nanReward (sym : String)
  | notImplemented (msg : String)
  | typeError (msg : String)
deriving DecidableEq

/-- A closed-form decision rule (a function of the merged environment). -/
def Rule : Type := Env → Value

/-- Specification of one dynamic variable, as used by `BlockPolicyNet`:
only the information set of a control is consulted. -/
structure ControlSpec where
  iset : List String

/-- The external Block collaborator.  `reward` is the dict mapping reward
symbols to owning agents, `shocks` the keys of `get_shocks()`, `controls`
the result of `get_controls()`, `dynamics` the dict consulted by
`BlockPolicyNet`; `transition vals decision_rules fix` is the block's
`transition` method, kept abstract. -/
structure Block where
  reward : List (String × String)
  shocks : List String
  controls : List String
  dynamics : List (String × ControlSpec)
  transition : Env → List (String × Rule) → List String → Env

/-- A discount factor: a number, or a (state-dependent) callable. -/
inductive Discount where
  | const (γ : ℚ)
  | fn (f : Env → ℚ)

/-- The `dr` argument: a dict of decision rules, or a full decision
function (the source dispatches on `callable(dr)`). -/
inductive Dr where
  | rules (drs : List (String × Rule))
  | fn (f : Env → Env → Env → Env)

instance {ε α : Type} [DecidableEq ε] [DecidableEq α] :
    DecidableEq (Except ε α) := fun x y =>
  match x, y with
  | .ok a, .ok b => decidable_of_iff (a = b) (by simp)
  | .error a, .error b => decidable_of_iff (a = b) (by simp)
  | .ok _, .error _ => isFalse (fun h => nomatch h)
  | .error _, .ok _ => isFalse (fun h => nomatch h)

/-- A Python dict comprehension `{sym: post[sym] for sym in syms}`:
evaluated left to right, raising `KeyError` at the first missing symbol. -/
def extractSyms (post : Env) : List String → Except Err Env
  | [] => .ok []
  | sym :: rest =>
    match Env.get post sym with
    | none => .error (.keyError sym)
    | some v =>
      match extractSyms post rest with
      | .error e => .error e
      | .ok e => .ok ((sym, v) :: e)

/-- The closure produced by `create_transition_function(block, state_syms)`:
merge `parameters | states_t | shocks_t | controls_t`, run the block
transition with no decision rules and the controls held fixed, and
extract the declared state symbols. -/
def create_transition_function (block : Block) (state_syms : List String)
    (states_t shocks_t controls_t parameters : Env) : Except Err Env :=
  let vals := ((parameters.pyUnion states_t).pyUnion shocks_t).pyUnion controls_t
  extractSyms (block.transition vals [] (controls_t.map Prod.fst)) state_syms

/-- The closure produced by `create_decision_function(block, decision_rules)`:
merge `parameters | states_t | shocks_t`, run the block transition with the
decision rules, and extract the rule symbols.  (The source's
`if parameters is None` guard is dropped: `parameters` is always a dict
here.) -/
def create_decision_function (block : Block) (drs : List (String × Rule))
    (states_t shocks_t parameters : Env) : Except Err Env :=
  let vals := (parameters.pyUnion states_t).pyUnion shocks_t
  extractSyms (block.transition vals drs []) (drs.map Prod.fst)

/-- The reward-symbol filter `agent is None or block.reward[sym] == agent`,
applied to the declared reward dict. -/
def matchingRewardSyms (block : Block) (agent : Option String) : List String :=
  (block.reward.filter (fun p =>
    match agent with
    | none => true
    | some a => p.2 == a)).map Prod.fst

/-- The closure produced by `create_reward_function(block, agent)`: same
merge-and-transition pattern as the transition function, extracting the
reward symbols owned by `agent` (or all of them). -/
def create_reward_function (block : Block) (agent : Option String)
    (states_t shocks_t controls_t parameters : Env) : Except Err Env :=
  let vals := ((parameters.pyUnion states_t).pyUnion shocks_t).pyUnion controls_t
  extractSyms (block.transition vals [] (controls_t.map Prod.fst))
    (matchingRewardSyms block agent)

/-- Dispatch on `callable(dr)`: a decision function is used as-is, a dict
of rules goes through `create_decision_function`. -/
def applyDr (block : Block) (dr : Dr) (states_t shocks_t parameters : Env) :
    Except Err Env :=
  match dr with
  | .fn f => .ok (f states_t shocks_t parameters)
  | .rules drs => create_decision_function block drs states_t shocks_t parameters

/-- The comprehension `{sym: shocks_by_t[sym][t] for sym in shocks_by_t}`;
indexing past the end of a period vector is an IndexError. -/
def shocksAtT : List (String × List Value) → ℕ → Except Err Env
  | [], _ => .ok []
  | (sym, vec) :: rest, t =>
    match vec[t]? with
    | none => .error .indexError
    | some v =>
      match shocksAtT rest t with
      | .error e => .error e
      | .ok sh => .ok ((sym, v) :: sh)

/-- The `for t in range(big_t)` loop of `estimate_discounted_lifetime_reward`,
threading the current states and the running total.  The first argument of
the recursion is the number of remaining periods, the second the current
period index `t`. -/
def edlrLoop (block : Block) (dr : Dr) (agent : Option String)
    (state_syms : List String) (parameters : Env) (rsym : String) (γ : ℚ)
    (shocks_by_t : Option (List (String × List Value))) :
    ℕ → ℕ → Env → Value → Except Err Value
  | 0, _, _, total => .ok total
  | k + 1, t, states_t, total =>
    match (match shocks_by_t with
           | some sched => shocksAtT sched t
           | none => .ok ([] : Env)) with
    | .error e => .error e
    | .ok shocks_t =>
      match applyDr block dr states_t shocks_t parameters with
      | .error e => .error e
      | .ok controls_t =>
        match create_reward_function block agent states_t shocks_t controls_t
            parameters with
        | .error e => .error e
        | .ok reward_t =>
          match Env.get reward_t rsym with
          | none => .error (.keyError rsym)
          | some rv =>
            if torchNanCheck rv then .error (.nanReward rsym)
            else if npNanCheck rv then .error (.nanReward rsym)
            else
              match create_transition_function block state_syms states_t
                  shocks_t controls_t parameters with
              | .error e => .error e
              | .ok states' =>
                edlrLoop block dr agent state_syms parameters rsym γ
                  shocks_by_t k (t + 1) states' (total.add (rv.scale (γ ^ t)))

/-- `estimate_discounted_lifetime_reward`.  The reward symbol is selected
by `list({sym for sym in block.reward if ...})[0]` in the source: the set
is modelled by deduplicating the matching symbols and enumerating them in
the process-dependent order `setOrder`; an empty set is an IndexError.
The callable-discount check follows that selection, before the loop.  The
running total starts at the Python int `0`, modelled as the scalar `0`. -/
def estimate_discounted_lifetime_reward (block : Block)
    (discount_factor : Discount) (dr : Dr) (states_0 : Env) (big_t : ℕ)
    (shocks_by_t : Option (List (String × List Value))) (parameters : Env)
    (agent : Option String) (setOrder : List String → List String) :
    Except Err Value :=
  let state_syms := states_0.map Prod.fst
  match (setOrder (matchingRewardSyms block agent).dedup).head? with
  | none => .error .indexError
  | some rsym =>
    match discount_factor with
    | .fn _ => .error .unsupportedDiscount
    | .const γ =>
      edlrLoop block dr agent state_syms parameters rsym γ shocks_by_t
        big_t 0 states_0 (.scalar (.fin 0))

/-- The time-indexed symbol `f"{sym}_{t}"`. -/
def timeSym (sym : String) (t : ℕ) : String := sym ++ "_" ++ toString t

/-- The nested comprehension
`sum([[f"{sym}_{t}" for sym in shock_vars] for t in range(big_t)], [])`:
time-major order (all symbols for period 0, then period 1, ...). -/
def bigTShockSyms (shock_vars : List String) (big_t : ℕ) : List String :=
  ((List.range big_t).map (fun t => shock_vars.map (fun sym => timeSym sym t))).flatten

/-- The list `[shock_vals[f"{sym}_{t}"] for t in ts]` fed to `torch.stack`
for one shock symbol (KeyError at the first missing entry). -/
def stackOne (shock_vals : Env) (sym : String) : List ℕ → Except Err (List Value)
  | [] => .ok []
  | t :: ts =>
    match Env.get shock_vals (timeSym sym t) with
    | none => .error (.keyError (timeSym sym t))
    | some v =>
      match stackOne shock_vals sym ts with
      | .error e => .error e
      | .ok vs => .ok (v :: vs)

/-- The comprehension building `shocks_by_t`: for each shock symbol, stack
its `big_t` time-indexed copies into one per-symbol time series. -/
def stackShocks (shock_vals : Env) : List String → ℕ → Except Err (List (String × List Value))
  | [], _ => .ok []
  | sym :: rest, big_t =>
    match stackOne shock_vals sym (List.range big_t) with
    | .error e => .error e
    | .ok vs =>
      match stackShocks shock_vals rest big_t with
      | .error e => .error e
      | .ok acc => .ok ((sym, vs) :: acc)

/-- `get_estimated_discounted_lifetime_reward_loss`.  Returns the closure
`estimated_discounted_lifetime_reward_loss(df, input_vector)`: zip the
expected symbols with the flat input batch, rebuild the per-symbol shock
series and the initial states, call the estimator with `agent=None`, and
negate the result. -/
def get_estimated_discounted_lifetime_reward_loss (state_variables : List String)
    (block : Block) (discount_factor : Discount) (big_t : ℕ) (parameters : Env)
    (setOrder : List String → List String) :
    Dr → List Value → Except Err Value :=
  let shock_vars := block.shocks
  let big_t_shock_syms := bigTShockSyms shock_vars big_t
  let given_syms := state_variables ++ big_t_shock_syms
  fun df input_vector =>
    let given_vals := dictZip given_syms input_vector
    match extractSyms given_vals big_t_shock_syms with
    | .error e => .error e
    | .ok shock_vals =>
      match stackShocks shock_vals shock_vars big_t with
      | .error e => .error e
      | .ok shocks_by_t =>
        match extractSyms given_vals state_variables with
        | .error e => .error e
        | .ok states_0 =>
          match estimate_discounted_lifetime_reward block discount_factor df
              states_0 big_t (some shocks_by_t) parameters none setOrder with
          | .error e => .error e
          | .ok edlr => .ok edlr.neg

/-- The training batch ("omega" grid).  Its construction is unimplemented
in the source, so only its type matters here. -/
abbrev Givens : Type := List (String × Value)

/-- `generate_givens_from_states` unconditionally raises
`Exception("generate_givens_from_states not implemented")`. -/
def generate_givens_from_states (_states : Env) (_block : Block)
    (_shock_copies : ℕ) : Except Err Givens :=
  .error (.notImplemented "generate_givens_from_states not implemented")

/-- The state of torch's global random generator. -/
abbrev RngState : Type := ℕ

/-- `torch.manual_seed(s)`: deterministically resets the global generator
state from the seed, discarding the previous (ambient) state. -/
def manualSeed (s : ℕ) : RngState := s

/-- The type of loss closures handed to the training loop. -/
def LossFn : Type := Dr → List Value → Except Err Value

/-- A stand-in for the module object `ann`: the source's final
`return ann, states` returns the imported module itself, not the trained
`bpn` net. -/
inductive AnnModuleRef where
  | mk
deriving DecidableEq

/-- `ann.BlockPolicyNet(block, width)` construction: reads the first
control symbol (`block.get_controls()[0]`, IndexError when there are no
controls) and its `dynamics` entry (KeyError when absent), then draws the
network weights from the global generator via the external torch
initializer `netDraw` (called with the size of the control's information
set and the width). -/
def blockPolicyNetInit {NP : Type} (netDraw : ℕ → ℕ → RngState → NP × RngState)
    (block : Block) (width : ℕ) (g : RngState) : Except Err (NP × RngState) :=
  match block.controls.head? with
  | none => .error .indexError
  | some csym =>
    match alookup block.dynamics csym with
    | none => .error (.keyError csym)
    | some control => .ok (netDraw control.iset.length width g)

/-- `ann.train_block_policy_nn(bpn, givens, loss_function, epochs)`: a
fixed number of epochs, each applying one Adam step; autograd and the
optimizer are the external oracle `optStep`. -/
def train_block_policy_nn {NP : Type} (optStep : NP → Givens → LossFn → NP)
    (θ : NP) (givens : Givens) (loss_function : LossFn) (epochs : ℕ) : NP :=
  (List.range epochs).foldl (fun p _ => optStep p givens loss_function) θ

/-- The body of the `for i in range(100)` loop of `maliar_training_loop`,
recursing on the remaining iteration count and returning the result
together with the trajectory of network parameter states.  Each iteration:
generate givens from the (initial!) panel — which unconditionally raises —
then 250 training epochs, then the `simulate_forward` call, which in the
source supplies only 4 of that function's 6 required positional arguments
and so would raise a TypeError. -/
def mtlIter {NP : Type} (optStep : NP → Givens → LossFn → NP) (block : Block)
    (loss_function : LossFn) (states_0_n : Env) (shock_copies : ℕ) :
    ℕ → Env → NP → List NP → Except Err (AnnModuleRef × Env) × List NP
  | 0, states, _θ, trace => (.ok (.mk, states), trace)
  | _k + 1, _states, θ, trace =>
    match generate_givens_from_states states_0_n block shock_copies with
    | .error e => (.error e, trace)
    | .ok givens =>
      let θ' := train_block_policy_nn optStep θ givens loss_function 250
      (.error (.typeError "simulate_forward missing required positional arguments"),
        trace ++ [θ'])

/-- `maliar_training_loop`.  Seeds the global generator when a seed is
given (otherwise the ambient generator state `g0` is used), constructs the
`BlockPolicyNet`, and runs the hard-coded 100-iteration loop
(`max_iterations` is accepted but never read by the source).  Returns the
result together with the network-parameter trajectory. -/
def maliar_training_loop {NP : Type} (netDraw : ℕ → ℕ → RngState → NP × RngState)
    (optStep : NP → Givens → LossFn → NP) (block : Block)
    (loss_function : LossFn) (states_0_n : Env) (_parameters : Env)
    (shock_copies : ℕ) (_max_iterations : Option ℕ) (random_seed : Option ℕ)
    (g0 : RngState) : Except Err (AnnModuleRef × Env) × List NP :=
  let g : RngState :=
    match random_seed with
    | some s => manualSeed s
    | none => g0
  match blockPolicyNetInit netDraw block 16 g with
  | .error e => (.error e, [])
  | .ok θg =>
    mtlIter optStep block loss_function states_0_n shock_copies 100
      states_0_n θg.1 [θg.1]

/-! ### Lemmas about dict lookup, merge, and extraction -/

theorem alookup_append {β : Type} (a b : List (String × β)) (k : String) :
    alookup (a ++ b) k = ((alookup a k).orElse (fun _ => alookup b k)) := by
  induction a with
  | nil => rfl
  | cons p rest ih =>
    cases p with
    | mk pk pv =>
      by_cases h : pk = k
      · simp [alookup, h, Option.orElse]
      · simp [alookup, h, ih]

theorem alookup_eq_none_iff {β : Type} (l : List (String × β)) (k : String) :
    alookup l k = none ↔ k ∉ l.map Prod.fst := by
  induction l with
  | nil => simp [alookup]
  | cons p rest ih =>
    cases p with
    | mk pk pv =>
      by_cases h : pk = k
      · simp [alookup, h]
      · simp [alookup, h, ih, Ne.symm h]

theorem alookup_pyUnion_map (a b : Env) (k : String) :
    alookup (a.map (fun p => (p.1, (Env.get b p.1).getD p.2))) k
      = (alookup a k).map (fun v => (Env.get b k).getD v) := by
  induction a with
  | nil => rfl
  | cons p rest ih =>
    cases p with
    | mk pk pv =>
      by_cases h : pk = k
      · subst h; simp [alookup]
      · simp [alookup, h, ih]

theorem alookup_map_self {β : Type} (l : List String) (g : String → β) (k : String) :
    alookup (l.map (fun x => (x, g x))) k = if k ∈ l then some (g k) else none := by
  induction l with
  | nil => simp [alookup]
  | cons x rest ih =>
    by_cases h : x = k
    · subst h; simp [alookup]
    · simp [alookup, h, ih, Ne.symm h]

theorem alookup_filter_of_none (a b : Env) (k : String) (ha : Env.get a k = none) :
    alookup (b.filter (fun p => (Env.get a p.1).isNone)) k = Env.get b k := by
  induction b with
  | nil => rfl
  | cons p rest ih =>
    cases p with
    | mk pk pv =>
      by_cases h : pk = k
      · subst h
        simp only [List.filter_cons, ha, Option.isNone_none]
        simp [alookup, Env.get]
      · by_cases hp : (Env.get a pk).isNone
        · simp only [List.filter_cons, hp]
          simpa [alookup, h, Env.get] using ih
        · simp only [List.filter_cons, hp]
          simpa [alookup, h, Env.get] using ih

/-- Lookup in a Python dict merge: the right operand wins. -/
theorem pyUnion_get (a b : Env) (k : String) :
    Env.get (a.pyUnion b) k = ((Env.get b k).orElse (fun _ => Env.get a k)) := by
  show alookup _ k = _
  rw [Env.pyUnion, alookup_append, alookup_pyUnion_map]
  cases hb : Env.get b k with
  | some w =>
    cases ha : Env.get a k with
    | some va => simp [Env.get] at ha ⊢; simp [ha, hb, Option.orElse]
    | none =>
      simp [Env.get] at ha ⊢
      rw [ha]
      simp [Option.orElse, alookup_filter_of_none a b k ha, hb]
  | none =>
    cases ha : Env.get a k with
    | some va =>
      simp [Env.get] at ha ⊢
      rw [ha]
      simp [Option.orElse, hb]
    | none =>
      simp [Env.get] at ha ⊢
      rw [ha]
      simp [Option.orElse, alookup_filter_of_none a b k ha, hb]

theorem extractSyms_congr (e1 e2 : Env) (syms : List String)
    (h : ∀ s ∈ syms, Env.get e1 s = Env.get e2 s) :
    extractSyms e1 syms = extractSyms e2 syms := by
  induction syms with
  | nil => rfl
  | cons s rest ih =>
    have hs := h s (by simp)
    have hrest := ih (fun s2 hs2 => h s2 (by simp [hs2]))
    simp only [extractSyms, hs, hrest]

theorem extractSyms_ok (post : Env) (syms : List String)
    (h : ∀ s ∈ syms, (Env.get post s).isSome) :
    extractSyms post syms =
      .ok (syms.map (fun s => (s, (Env.get post s).getD (Value.scalar .nan)))) := by
  induction syms with
  | nil => rfl
  | cons s rest ih =>
    have hs := h s (by simp)
    obtain ⟨v, hv⟩ := Option.isSome_iff_exists.mp hs
    have hrest := ih (fun s2 hs2 => h s2 (by simp [hs2]))
    simp only [extractSyms, hv, hrest, List.map_cons, Option.getD_some]

theorem extractSyms_error_of_missing (post : Env) (syms : List String)
    (s : String) (hs : s ∈ syms) (hnone : Env.get post s = none) :
    ∃ s2, extractSyms post syms = .error (.keyError s2) := by
  induction syms with
  | nil => simp at hs
  | cons s0 rest ih =>
    cases h0 : Env.get post s0 with
    | none => exact ⟨s0, by simp [extractSyms, h0]⟩
    | some v =>
      rcases List.mem_cons.mp hs with h | h
      · subst h; rw [h0] at hnone; simp at hnone
      · obtain ⟨s2, hs2⟩ := ih h
        exact ⟨s2, by simp [extractSyms, h0, hs2]⟩

theorem extractSyms_cons_env (p : String × Value) (e : Env) (syms : List String)
    (hp : p.1 ∉ syms) :
    extractSyms (p :: e) syms = extractSyms e syms := by
  apply extractSyms_congr
  intro s hs
  have : p.1 ≠ s := fun h => hp (h ▸ hs)
  cases p with
  | mk pk pv => simpa [Env.get, alookup] using fun h => absurd h this

theorem extractSyms_append_env_left (e1 e2 : Env) (syms : List String)
    (h : ∀ s ∈ syms, Env.get e1 s = none) :
    extractSyms (e1 ++ e2) syms = extractSyms e2 syms := by
  apply extractSyms_congr
  intro s hs
  show alookup (e1 ++ e2) s = _
  rw [alookup_append]
  have := h s hs
  simp only [Env.get] at this
  simp [this, Option.orElse]

theorem extractSyms_append_env_right (e1 e2 : Env) (syms : List String)
    (h : ∀ s ∈ syms, (Env.get e1 s).isSome) :
    extractSyms (e1 ++ e2) syms = extractSyms e1 syms := by
  apply extractSyms_congr
  intro s hs
  show alookup (e1 ++ e2) s = _
  rw [alookup_append]
  obtain ⟨v, hv⟩ := Option.isSome_iff_exists.mp (h s hs)
  simp [hv, Option.orElse]

theorem alookup_reverse {β : Type} (l : List (String × β)) (k : String)
    (h : (l.map Prod.fst).Nodup) :
    alookup l.reverse k = alookup l k := by
  induction l with
  | nil => rfl
  | cons p rest ih =>
    cases p with
    | mk pk pv =>
      simp only [List.map_cons, List.nodup_cons] at h
      rw [List.reverse_cons, alookup_append, ih h.2]
      by_cases hk : pk = k
      · subst hk
        have : alookup rest pk = none := (alookup_eq_none_iff rest pk).mpr h.1
        simp [this, alookup, Option.orElse]
      · cases hr : alookup rest k with
        | some v => simp [alookup, hk, hr, Option.orElse]
        | none => simp [alookup, hk, hr, Option.orElse]

theorem map_fst_zip_take {β : Type} (ks : List String) (vs : List β) :
    (ks.zip vs).map Prod.fst = ks.take vs.length := by
  induction ks generalizing vs with
  | nil => simp
  | cons k0 rest ih =>
    cases vs with
    | nil => simp
    | cons v0 vrest => simp [List.zip_cons_cons, ih]

theorem alookup_zip_none {β : Type} (ks : List String) (vs : List β) (k : String)
    (h : k ∉ ks) :
    alookup (ks.zip vs) k = none := by
  apply (alookup_eq_none_iff _ _).mpr
  rw [map_fst_zip_take]
  exact fun hmem => h (List.take_subset _ _ hmem)

theorem extract_zip_self (ks : List String) (vs : List Value)
    (hnd : ks.Nodup) (hlen : ks.length = vs.length) :
    extractSyms (ks.zip vs) ks = .ok (ks.zip vs) := by
  induction ks generalizing vs with
  | nil => rfl
  | cons k0 rest ih =>
    cases vs with
    | nil => simp at hlen
    | cons v0 vrest =>
      simp only [List.nodup_cons] at hnd
      have hrest := ih vrest hnd.2 (by simpa using hlen)
      rw [List.zip_cons_cons]
      show extractSyms ((k0, v0) :: rest.zip vrest) (k0 :: rest) = _
      have hskip : extractSyms ((k0, v0) :: rest.zip vrest) rest
          = extractSyms (rest.zip vrest) rest :=
        extractSyms_cons_env (k0, v0) (rest.zip vrest) rest hnd.1
      simp [extractSyms, Env.get, alookup, hskip, hrest]

theorem shocksAtT_ok (sched : List (String × List Value)) (t : ℕ)
    (h : ∀ p ∈ sched, t < p.2.length) :
    ∃ sh, shocksAtT sched t = .ok sh := by
  induction sched with
  | nil => exact ⟨[], rfl⟩
  | cons p rest ih =>
    obtain ⟨sh, hsh⟩ := ih (fun q hq => h q (by simp [hq]))
    cases p with
    | mk sym vec =>
      cases hv : vec[t]? with
      | none =>
        rw [List.getElem?_eq_none_iff] at hv
        have := h (sym, vec) (by simp)
        simp at this
        omega
      | some v => exact ⟨(sym, v) :: sh, by simp [shocksAtT, hv, hsh]⟩

/-! ### The unrolled recurrence under a constant scalar reward -/

theorem reward_env_get (block : Block) (agent : Option String) (vals : Env)
    (fix : List String) (rsym : String) (v : Value)
    (hall : ∀ sym ∈ matchingRewardSyms block agent,
      (Env.get (block.transition vals [] fix) sym).isSome)
    (hr : Env.get (block.transition vals [] fix) rsym = some v)
    (hrs : rsym ∈ matchingRewardSyms block agent) :
    ∃ e, extractSyms (block.transition vals [] fix) (matchingRewardSyms block agent)
          = .ok e
      ∧ Env.get e rsym = some v := by
  refine ⟨_, extractSyms_ok _ _ hall, ?_⟩
  show alookup _ rsym = _
  rw [alookup_map_self]
  simp [hrs, hr]

theorem edlrLoop_const (block : Block) (agent : Option String)
    (f : Env → Env → Env → Env) (parameters : Env) (state_syms : List String)
    (rsym : String) (r γ : ℚ) (shocks_by_t : Option (List (String × List Value)))
    (hall : ∀ vals fix sym, sym ∈ matchingRewardSyms block agent →
      (Env.get (block.transition vals [] fix) sym).isSome)
    (hr : ∀ vals fix,
      Env.get (block.transition vals [] fix) rsym = some (.scalar (.fin r)))
    (hrs : rsym ∈ matchingRewardSyms block agent)
    (hstate : ∀ vals fix sym, sym ∈ state_syms →
      (Env.get (block.transition vals [] fix) sym).isSome) :
    ∀ k t states a,
      (∀ sched, shocks_by_t = some sched → ∀ p ∈ sched, t + k ≤ p.2.length) →
      edlrLoop block (.fn f) agent state_syms parameters rsym γ shocks_by_t k t
          states (.scalar (.fin a))
        = .ok (.scalar (.fin (a + ∑ i ∈ Finset.range k, r * γ ^ (t + i)))) := by
  intro k
  induction k with
  | zero => intro t states a _; simp [edlrLoop]
  | succ k ih =>
    intro t states a hsh
    obtain ⟨shocks_t, hshk⟩ : ∃ sh,
        (match shocks_by_t with
         | some sched => shocksAtT sched t
         | none => .ok ([] : Env)) = .ok sh := by
      cases hs : shocks_by_t with
      | none => exact ⟨[], rfl⟩
      | some sched =>
        obtain ⟨sh, h⟩ := shocksAtT_ok sched t (fun p hp => by
          have := hsh sched hs p hp; omega)
        exact ⟨sh, by simp [h]⟩
    obtain ⟨re, hre, hrget⟩ := reward_env_get block agent
      (((parameters.pyUnion states).pyUnion shocks_t).pyUnion
        (f states shocks_t parameters))
      ((f states shocks_t parameters).map Prod.fst) rsym (.scalar (.fin r))
      (fun sym hs => hall _ _ sym hs) (hr _ _) hrs
    have hstates' := extractSyms_ok
      (block.transition
        (((parameters.pyUnion states).pyUnion shocks_t).pyUnion
          (f states shocks_t parameters)) []
        ((f states shocks_t parameters).map Prod.fst))
      state_syms (fun s hs => hstate _ _ s hs)
    have hstep : edlrLoop block (.fn f) agent state_syms parameters rsym γ
        shocks_by_t (k + 1) t states (.scalar (.fin a))
      = edlrLoop block (.fn f) agent state_syms parameters rsym γ shocks_by_t k
          (t + 1)
          (state_syms.map (fun s =>
            (s, (Env.get (block.transition
              (((parameters.pyUnion states).pyUnion shocks_t).pyUnion
                (f states shocks_t parameters)) []
              ((f states shocks_t parameters).map Prod.fst)) s).getD
                (Value.scalar .nan))))
          (.scalar (.fin (a + r * γ ^ t))) := by
      simp only [edlrLoop, hshk]
      simp only [applyDr, create_reward_function, create_transition_function,
        hre, hrget, hstates']
      simp [torchNanCheck, npNanCheck, Value.add, Value.scale, Num.add, Num.mulQ]
    rw [hstep, ih (t + 1) _ (a + r * γ ^ t)
      (fun sched hs p hp => by have := hsh sched hs p hp; omega)]
    have hshift : ∀ i ∈ Finset.range k,
        r * γ ^ (t + (i + 1)) = r * γ ^ ((t + 1) + i) := by
      intro i _
      rw [show t + (i + 1) = (t + 1) + i from by omega]
    have halg : (a + r * γ ^ t) + ∑ i ∈ Finset.range k, r * γ ^ ((t + 1) + i)
        = a + ∑ i ∈ Finset.range (k + 1), r * γ ^ (t + i) := by
      rw [Finset.sum_range_succ', Finset.sum_congr rfl hshift]
      ring
    rw [halg]

/-! ### Reward-symbol selection through the set enumeration -/

theorem head_setOrder_singleton (setOrder : List String → List String)
    (hperm : ∀ l, (setOrder l).Perm l) (s : String) :
    (setOrder [s]).head? = some s := by
  rw [List.perm_singleton.mp (hperm [s])]
  rfl

theorem head_setOrder_of_ne_nil (setOrder : List String → List String)
    (hperm : ∀ l, (setOrder l).Perm l) (l : List String) (hl : l ≠ []) :
    ∃ rsym, (setOrder l.dedup).head? = some rsym ∧ rsym ∈ l := by
  have hd : l.dedup ≠ [] := fun h => hl ((List.dedup_eq_nil _).mp h)
  have hso : setOrder l.dedup ≠ [] := by
    intro h
    exact hd (List.Perm.eq_nil ((h ▸ hperm l.dedup).symm))
  obtain ⟨x, xs, hx⟩ := List.exists_cons_of_ne_nil hso
  refine ⟨x, by rw [hx]; rfl, ?_⟩
  have hmem : x ∈ setOrder l.dedup := by rw [hx]; simp
  exact List.mem_dedup.mp ((hperm l.dedup).mem_iff.mp hmem)

/-- C1: for every block with a single constant per-period reward `r`, every
non-callable constant discount factor `γ`, and every horizon `T ≥ 0`,
`estimate_discounted_lifetime_reward` returns the discounted sum over
`t = 0..T-1` of `r * γ^t`; in particular it equals `r * T` when `γ = 1`
and `r * (1 - γ^T) / (1 - γ)` when `γ ≠ 1`. -/
theorem c1_constant_reward_geometric (block : Block) (agent : Option String)
    (setOrder : List String → List String)
    (hperm : ∀ l, (setOrder l).Perm l) (rsym : String)
    (hmatch : matchingRewardSyms block agent = [rsym]) (r : ℚ)
    (hr : ∀ vals fix,
      Env.get (block.transition vals [] fix) rsym = some (.scalar (.fin r)))
    (states_0 : Env)
    (hstate : ∀ vals fix sym, sym ∈ states_0.map Prod.fst →
      (Env.get (block.transition vals [] fix) sym).isSome)
    (γ : ℚ) (f : Env → Env → Env → Env) (parameters : Env) (T : ℕ)
    (shocks_by_t : Option (List (String × List Value)))
    (hsh : ∀ sched, shocks_by_t = some sched → ∀ p ∈ sched, T ≤ p.2.length) :
    estimate_discounted_lifetime_reward block (.const γ) (.fn f) states_0 T
        shocks_by_t parameters agent setOrder
      = .ok (.scalar (.fin (∑ t ∈ Finset.range T, r * γ ^ t)))
    ∧ (γ = 1 → (∑ t ∈ Finset.range T, r * γ ^ t) = r * T)
    ∧ (γ ≠ 1 → (∑ t ∈ Finset.range T, r * γ ^ t) = r * (1 - γ ^ T) / (1 - γ)) := by
  refine ⟨?_, ?_, ?_⟩
  · have hloop := edlrLoop_const block agent f parameters (states_0.map Prod.fst)
      rsym r γ shocks_by_t
      (fun vals fix sym hs => by
        rw [hmatch] at hs
        simp at hs
        subst hs
        simp [hr vals fix])
      hr (by rw [hmatch]; simp) hstate T 0 states_0 0
      (fun sched hs p hp => by simpa using hsh sched hs p hp)
    rw [estimate_discounted_lifetime_reward, hmatch]
    simp only [List.dedup_cons_of_not_mem (List.not_mem_nil rsym), List.dedup_nil,
      head_setOrder_singleton setOrder hperm rsym]
    rw [hloop]
    have hz : (0 : ℚ) + ∑ i ∈ Finset.range T, r * γ ^ (0 + i)
        = ∑ t ∈ Finset.range T, r * γ ^ t := by
      rw [zero_add]
      exact Finset.sum_congr rfl (fun i _ => by rw [Nat.zero_add])
    rw [hz]
  · intro h1
    subst h1
    simp [Finset.sum_const, Finset.card_range, mul_comm]
  · intro hγ
    rw [← Finset.mul_sum, geom_sum_eq hγ]
    rw [show (γ ^ T - 1) / (γ - 1) = ((1 : ℚ) - γ ^ T) / (1 - γ) from by
      rw [show (1 : ℚ) - γ ^ T = -(γ ^ T - 1) from by ring,
        show (1 : ℚ) - γ = -(γ - 1) from by ring, neg_div_neg_eq]]
    rw [mul_div_assoc]

/-- A concrete block with a single reward symbol `u` (owned by agent
`consumer`), no shocks or controls, and a transition that always produces
`u = 2` and `x = 3`; used by witnesses. -/
def constRewardBlock : Block where
  reward := [("u", "consumer")]
  shocks := []
  controls := []
  dynamics := []
  transition := fun _ _ _ => [("u", .scalar (.fin 2)), ("x", .scalar (.fin 3))]

theorem c1_witness :
    estimate_discounted_lifetime_reward constRewardBlock (.const (1 / 2))
        (.fn fun _ _ _ => []) [("x", .scalar (.fin 1))] 2 none [] none id
      = .ok (.scalar (.fin 3)) := by
  have h := (c1_constant_reward_geometric constRewardBlock none id (fun l => List.Perm.refl l)
    "u" (by rfl) 2 (fun vals fix => rfl)
    [("x", .scalar (.fin 1))]
    (fun vals fix sym hs => by
      simp at hs
      subst hs
      rfl)
    (1 / 2) (fun _ _ _ => []) [] 2 none (fun sched hs => nomatch hs)).1
  rw [h]
  norm_num [Finset.sum_range_succ]

/-- C10: with at least one reward symbol matching the agent filter and a
non-callable discount factor, `estimate_discounted_lifetime_reward` with
`big_t = 0` returns exactly `0` (the initial running total), for every
decision input, shock schedule, initial state and block transition — i.e.
without the decision, reward or transition functions being evaluated even
once. -/
theorem c10_zero_horizon (block : Block) (agent : Option String)
    (setOrder : List String → List String) (hperm : ∀ l, (setOrder l).Perm l)
    (hM : matchingRewardSyms block agent ≠ []) (γ : ℚ) (dr : Dr)
    (states_0 : Env) (shocks_by_t : Option (List (String × List Value)))
    (parameters : Env) :
    estimate_discounted_lifetime_reward block (.const γ) dr states_0 0
        shocks_by_t parameters agent setOrder = .ok (.scalar (.fin 0)) := by
  obtain ⟨rsym, hhead, _⟩ := head_setOrder_of_ne_nil setOrder hperm _ hM
  rw [estimate_discounted_lifetime_reward, hhead]
  rfl

theorem c10_witness :
    estimate_discounted_lifetime_reward constRewardBlock (.const 1) (.rules [])
        [] 0 none [] none id = .ok (.scalar (.fin 0)) :=
  c10_zero_horizon constRewardBlock none id (fun l => List.Perm.refl l)
    (by decide) 1 (.rules []) [] none []

/-- C6 (amended): a callable discount factor is rejected with the
unsupported-feature error, for every decision input, shock schedule,
initial state and block transition (so before any simulation step can
run) — provided at least one reward symbol matches the agent filter,
since the reward-symbol selection `list({...})[0]` precedes the
callable check in the source. -/
theorem c6_callable_discount_rejected (block : Block) (agent : Option String)
    (setOrder : List String → List String) (hperm : ∀ l, (setOrder l).Perm l)
    (hM : matchingRewardSyms block agent ≠ []) (fdisc : Env → ℚ) (dr : Dr)
    (states_0 : Env) (big_t : ℕ)
    (shocks_by_t : Option (List (String × List Value))) (parameters : Env) :
    estimate_discounted_lifetime_reward block (.fn fdisc) dr states_0 big_t
        shocks_by_t parameters agent setOrder
      = .error .unsupportedDiscount := by
  obtain ⟨rsym, hhead, _⟩ := head_setOrder_of_ne_nil setOrder hperm _ hM
  rw [estimate_discounted_lifetime_reward, hhead]

theorem c6_witness :
    estimate_discounted_lifetime_reward constRewardBlock (.fn fun _ => (0 : ℚ))
        (.fn fun _ _ _ => []) [] 3 none [] none id
      = .error .unsupportedDiscount :=
  c6_callable_discount_rejected constRewardBlock none id
    (fun l => List.Perm.refl l) (by decide) (fun _ => (0 : ℚ))
    (.fn fun _ _ _ => []) [] 3 none []

/-- A block with an empty reward specification (no reward symbols). -/
def emptyRewardBlock : Block where
  reward := []
  shocks := []
  controls := []
  dynamics := []
  transition := fun _ _ _ => []

/-- C6 counterexample: a call with a callable discount factor on a block
whose reward dict matches no symbol raises IndexError (from the
reward-symbol selection `list({...})[0]`, which runs first), not the
descriptive unsupported-feature error the claim promises for every such
call. -/
theorem c6_counterexample :
    estimate_discounted_lifetime_reward emptyRewardBlock (.fn fun _ => (1 : ℚ))
        (.rules []) [] 1 none [] none id = .error .indexError
    ∧ (Except.error Err.indexError : Except Err Value)
        ≠ .error .unsupportedDiscount :=
  ⟨by decide, by decide⟩

/-- C2 (amended): the estimator raises the divergence error, naming the
offending reward symbol, whenever the reward value is a torch tensor or a
numpy array containing a NaN entry and the horizon is positive. -/
theorem c2_nan_reward_divergence (block : Block) (agent : Option String)
    (setOrder : List String → List String) (hperm : ∀ l, (setOrder l).Perm l)
    (rsym : String) (hmatch : matchingRewardSyms block agent = [rsym])
    (v : Value)
    (hv : ∀ vals fix, Env.get (block.transition vals [] fix) rsym = some v)
    (hnan : torchNanCheck v = true ∨ npNanCheck v = true)
    (states_0 : Env) (γ : ℚ) (f : Env → Env → Env → Env) (parameters : Env)
    (T : ℕ) (shocks_by_t : Option (List (String × List Value)))
    (hsh : ∀ sched, shocks_by_t = some sched → ∀ p ∈ sched, 0 < p.2.length) :
    estimate_discounted_lifetime_reward block (.const γ) (.fn f) states_0
        (T + 1) shocks_by_t parameters agent setOrder
      = .error (.nanReward rsym) := by
  rw [estimate_discounted_lifetime_reward, hmatch]
  simp only [List.dedup_cons_of_not_mem (List.not_mem_nil rsym), List.dedup_nil,
    head_setOrder_singleton setOrder hperm rsym]
  obtain ⟨shocks_t, hshk⟩ : ∃ sh,
      (match shocks_by_t with
       | some sched => shocksAtT sched 0
       | none => .ok ([] : Env)) = .ok sh := by
    cases hs : shocks_by_t with
    | none => exact ⟨[], rfl⟩
    | some sched =>
      obtain ⟨sh, h⟩ := shocksAtT_ok sched 0 (fun p hp => hsh sched hs p hp)
      exact ⟨sh, by simp [h]⟩
  obtain ⟨re, hre, hrget⟩ := reward_env_get block agent
    (((parameters.pyUnion states_0).pyUnion shocks_t).pyUnion
      (f states_0 shocks_t parameters))
    ((f states_0 shocks_t parameters).map Prod.fst) rsym v
    (fun sym hs => by
      rw [hmatch] at hs
      simp at hs
      subst hs
      simp [hv])
    (hv _ _) (by rw [hmatch]; simp)
  simp only [edlrLoop, hshk]
  simp only [applyDr, create_reward_function, hre, hrget]
  rcases hnan with h | h
  · simp [h]
  · cases ht : torchNanCheck v with
    | true => simp [ht]
    | false => simp [ht, h]

/-- A block whose single reward value is a torch tensor containing NaN. -/
def nanRewardBlock : Block where
  reward := [("u", "a1")]
  shocks := []
  controls := []
  dynamics := []
  transition := fun _ _ _ =>
    [("u", .torchT [.fin 1, .nan]), ("x", .scalar (.fin 0))]

theorem c2_witness :
    estimate_discounted_lifetime_reward nanRewardBlock (.const 1)
        (.fn fun _ _ _ => []) [] 1 none [] none id
      = .error (.nanReward "u") :=
  c2_nan_reward_divergence nanRewardBlock none id (fun l => List.Perm.refl l)
    "u" (by rfl) (.torchT [.fin 1, .nan]) (fun _ _ => rfl) (Or.inl (by decide))
    [] 1 (fun _ _ _ => []) [] 0 none (fun sched hs => nomatch hs)

/-- A block whose single reward value is a torch tensor containing an
infinite (but not NaN) entry. -/
def infRewardBlock : Block where
  reward := [("u", "a1")]
  shocks := []
  controls := []
  dynamics := []
  transition := fun _ _ _ =>
    [("u", .torchT [.fin 1, .inf]), ("x", .scalar (.fin 0))]

/-- C2 counterexample: a reward containing a non-finite entry (an infinity
in a torch tensor) is NOT caught — the source only tests `isnan` — and the
estimator returns a numeric result instead of raising a divergence
error. -/
theorem c2_counterexample :
    estimate_discounted_lifetime_reward infRewardBlock (.const 1)
        (.fn fun _ _ _ => []) [("x", .scalar (.fin 0))] 1 none [] none id
      = .ok (.torchT [.fin 1, .inf]) := by
  rw [estimate_discounted_lifetime_reward]
  simp [matchingRewardSyms, infRewardBlock, edlrLoop, applyDr,
    create_reward_function, create_transition_function, extractSyms, Env.get,
    alookup, torchNanCheck, npNanCheck, Num.isNan, Value.add, Value.scale,
    Num.add, Num.mulQ]

/-- C8 (amended): exactly one reward symbol is accumulated into the total:
the head of the CPython set enumeration of the deduplicated matching
symbols.  It is some element of the matching set, but which one depends on
the process's hash-randomized set order, not on the block's declaration
order.  (With constant per-symbol reward values `v sym`, the total is the
discounted sum of the selected symbol's value alone.) -/
theorem c8_single_reward_selected (block : Block) (agent : Option String)
    (setOrder : List String → List String) (hperm : ∀ l, (setOrder l).Perm l)
    (hM : matchingRewardSyms block agent ≠ []) (v : String → ℚ)
    (hv : ∀ vals fix sym, sym ∈ matchingRewardSyms block agent →
      Env.get (block.transition vals [] fix) sym = some (.scalar (.fin (v sym))))
    (states_0 : Env)
    (hstate : ∀ vals fix sym, sym ∈ states_0.map Prod.fst →
      (Env.get (block.transition vals [] fix) sym).isSome)
    (γ : ℚ) (f : Env → Env → Env → Env) (parameters : Env) (T : ℕ)
    (shocks_by_t : Option (List (String × List Value)))
    (hsh : ∀ sched, shocks_by_t = some sched → ∀ p ∈ sched, T ≤ p.2.length) :
    ∃ rsym ∈ matchingRewardSyms block agent,
      estimate_discounted_lifetime_reward block (.const γ) (.fn f) states_0 T
          shocks_by_t parameters agent setOrder
        = .ok (.scalar (.fin (∑ t ∈ Finset.range T, v rsym * γ ^ t))) := by
  obtain ⟨rsym, hhead, hmem⟩ := head_setOrder_of_ne_nil setOrder hperm _ hM
  refine ⟨rsym, hmem, ?_⟩
  have hloop := edlrLoop_const block agent f parameters (states_0.map Prod.fst)
    rsym (v rsym) γ shocks_by_t
    (fun vals fix sym hs => by simp [hv vals fix sym hs])
    (fun vals fix => hv vals fix rsym hmem) hmem hstate T 0 states_0 0
    (fun sched hs p hp => by simpa using hsh sched hs p hp)
  rw [estimate_discounted_lifetime_reward]
  simp only [hhead]
  rw [hloop]
  have hz : (0 : ℚ) + ∑ i ∈ Finset.range T, v rsym * γ ^ (0 + i)
      = ∑ t ∈ Finset.range T, v rsym * γ ^ t := by
    rw [zero_add]
    exact Finset.sum_congr rfl (fun i _ => by rw [Nat.zero_add])
  rw [hz]

/-- A block declaring two reward symbols, `r1` before `r2`, both owned by
the same agent, with constant reward values 5 and 7 respectively. -/
def twoRewardBlock : Block where
  reward := [("r1", "ag"), ("r2", "ag")]
  shocks := []
  controls := []
  dynamics := []
  transition := fun _ _ _ =>
    [("r1", .scalar (.fin 5)), ("r2", .scalar (.fin 7)), ("x", .scalar (.fin 0))]

/-- C8 counterexample: on a block declaring rewards `r1` (value 5) then
`r2` (value 7), the accumulated reward symbol depends on the set
enumeration order: under the reversed enumeration the estimator returns
`r2`'s value 7, under the identity enumeration it returns `r1`'s value 5.
Both orders are realizable CPython set orders for a two-string set (string
hashing is randomized per process via PYTHONHASHSEED), so the claim that
the *declaration-order first* matching symbol is always selected is
false. -/
theorem c8_counterexample :
    estimate_discounted_lifetime_reward twoRewardBlock (.const 1)
        (.fn fun _ _ _ => []) [("x", .scalar (.fin 0))] 1 none [] none
        List.reverse
      = .ok (.scalar (.fin 7))
    ∧ estimate_discounted_lifetime_reward twoRewardBlock (.const 1)
        (.fn fun _ _ _ => []) [("x", .scalar (.fin 0))] 1 none [] none id
      = .ok (.scalar (.fin 5)) := by
  constructor
  · rw [estimate_discounted_lifetime_reward]
    have h1 : ((matchingRewardSyms twoRewardBlock none).dedup.reverse).head?
        = some "r2" := rfl
    simp only [h1]
    simp [matchingRewardSyms, twoRewardBlock, edlrLoop, applyDr,
      create_reward_function, create_transition_function, extractSyms,
      Env.get, alookup, torchNanCheck, npNanCheck, Num.isNan, Value.add,
      Value.scale, Num.add, Num.mulQ, shocksAtT]
  · rw [estimate_discounted_lifetime_reward]
    have h2 : (id (matchingRewardSyms twoRewardBlock none).dedup).head?
        = some "r1" := rfl
    simp only [h2]
    simp [matchingRewardSyms, twoRewardBlock, edlrLoop, applyDr,
      create_reward_function, create_transition_function, extractSyms,
      Env.get, alookup, torchNanCheck, npNanCheck, Num.isNan, Value.add,
      Value.scale, Num.add, Num.mulQ, shocksAtT]

/-- The constant per-symbol reward values of `twoRewardBlock`. -/
def twoRewardValues : String → ℚ :=
  fun s => if s = "r1" then 5 else if s = "r2" then 7 else 0

theorem c8_witness :
    ∃ rsym ∈ matchingRewardSyms twoRewardBlock none,
      estimate_discounted_lifetime_reward twoRewardBlock (.const 1)
          (.fn fun _ _ _ => []) [("x", .scalar (.fin 0))] 1 none [] none id
        = .ok (.scalar (.fin (∑ t ∈ Finset.range 1, twoRewardValues rsym * 1 ^ t))) :=
  c8_single_reward_selected twoRewardBlock none id (fun l => List.Perm.refl l)
    (by decide) twoRewardValues
    (fun vals fix sym hs => by
      simp [matchingRewardSyms, twoRewardBlock] at hs
      rcases hs with h | h <;> subst h <;> rfl)
    [("x", .scalar (.fin 0))]
    (fun vals fix sym hs => by
      simp at hs
      subst hs
      rfl)
    1 (fun _ _ _ => []) [] 1 none (fun sched hs => nomatch hs)

/-! ### The training loop: abort on the first iteration, determinism -/

theorem mtlIter_succ_error {NP : Type} (optStep : NP → Givens → LossFn → NP)
    (block : Block) (loss_function : LossFn) (states_0_n : Env)
    (shock_copies : ℕ) (k : ℕ) (states : Env) (θ : NP) (trace : List NP) :
    mtlIter optStep block loss_function states_0_n shock_copies (k + 1)
        states θ trace
      = (.error (.notImplemented "generate_givens_from_states not implemented"),
         trace) := by
  simp [mtlIter, generate_givens_from_states]

/-- C3 (amended): `maliar_training_loop` never completes a single loop
iteration.  Whenever the `BlockPolicyNet` construction succeeds (the block
has a first control symbol carrying a `dynamics` entry), the first
SimulateBatch step calls `generate_givens_from_states`, which
unconditionally raises the not-implemented error; the loop aborts on
iteration 0 and the function never returns an approximator or final
panel. -/
theorem c3_training_loop_aborts {NP : Type}
    (netDraw : ℕ → ℕ → RngState → NP × RngState)
    (optStep : NP → Givens → LossFn → NP) (block : Block)
    (loss_function : LossFn) (states_0_n : Env) (parameters : Env)
    (shock_copies : ℕ) (max_iterations : Option ℕ) (random_seed : Option ℕ)
    (g0 : RngState) (csym : String) (cspec : ControlSpec)
    (hc : block.controls.head? = some csym)
    (hd : alookup block.dynamics csym = some cspec) :
    (maliar_training_loop netDraw optStep block loss_function states_0_n
        parameters shock_copies max_iterations random_seed g0).1
      = .error (.notImplemented "generate_givens_from_states not implemented") := by
  have hinit : ∀ g, blockPolicyNetInit netDraw block 16 g
      = .ok (netDraw cspec.iset.length 16 g) := by
    intro g
    simp [blockPolicyNetInit, hc, hd]
  rw [maliar_training_loop.eq_def]
  simp only [hinit]
  rw [show (100 : ℕ) = 99 + 1 from rfl]
  simp only [mtlIter_succ_error]

/-- A block with one control symbol `c` whose information set has a single
member; its other components are empty. -/
def controlBlock : Block where
  reward := [("u", "a1")]
  shocks := []
  controls := ["c"]
  dynamics := [("c", ⟨["m"]⟩)]
  transition := fun _ _ _ => []

theorem c3_witness :
    (maliar_training_loop (fun n w g => (n + w + g, g + 1))
        (fun p _ _ => p) controlBlock (fun _ _ => .ok (.scalar (.fin 0)))
        [] [] 2 none (some 5) 0).1
      = .error (.notImplemented "generate_givens_from_states not implemented") :=
  c3_training_loop_aborts (fun n w g => (n + w + g, g + 1)) (fun p _ _ => p)
    controlBlock (fun _ _ => .ok (.scalar (.fin 0))) [] [] 2 none (some 5) 0
    "c" ⟨["m"]⟩ rfl rfl

/-- C3 counterexample: a fully concrete, valid invocation of
`maliar_training_loop` (valid block, loss function, panel, seed) does not
execute the loop for the full iteration budget and does not return the
trained approximator and final panel: it aborts with the not-implemented
error from `generate_givens_from_states` on the first iteration, with the
parameter trajectory still at its initial singleton. -/
theorem c3_counterexample :
    maliar_training_loop (fun n w g => (n + w + g, g + 1)) (fun p _ _ => p)
        controlBlock (fun _ _ => .ok (.scalar (.fin 0))) [] [] 2 none (some 5) 0
      = (.error (.notImplemented "generate_givens_from_states not implemented"),
         [22]) := by
  rw [maliar_training_loop]
  rw [show blockPolicyNetInit (fun n w g : ℕ => (n + w + g, g + 1)) controlBlock
        16 (manualSeed 5) = .ok (22, 6) from rfl]
  rw [show (100 : ℕ) = 99 + 1 from rfl]
  simp only [mtlIter_succ_error]

/-- C9: with a fixed random seed, the training loop is a deterministic
function of its inputs: `torch.manual_seed` overwrites the ambient global
generator state, so two independent runs from arbitrary (even different)
ambient generator states produce identical outputs, including identical
network-parameter trajectories.  (Each run deterministically initializes
the network and then aborts identically at the unimplemented givens
generation, so the trajectories produced agree byte for byte.) -/
theorem c9_seeded_determinism {NP : Type}
    (netDraw : ℕ → ℕ → RngState → NP × RngState)
    (optStep : NP → Givens → LossFn → NP) (block : Block)
    (loss_function : LossFn) (states_0_n : Env) (parameters : Env)
    (shock_copies : ℕ) (max_iterations : Option ℕ) (s : ℕ)
    (g0 g0' : RngState) :
    maliar_training_loop netDraw optStep block loss_function states_0_n
        parameters shock_copies max_iterations (some s) g0
      = maliar_training_loop netDraw optStep block loss_function states_0_n
          parameters shock_copies max_iterations (some s) g0' := rfl

/-- C7: the named-value environments are merged with override precedence
parameters < states < shocks < controls — a symbol bound in several
environments takes the value of the last (highest-precedence) one — and
the transition, decision and reward functions each pass exactly this
merged environment to the block transition (the decision function merges
only parameters, states and shocks, since controls are its output). -/
theorem c7_merge_precedence (block : Block) (state_syms : List String)
    (drs : List (String × Rule)) (agent : Option String)
    (states_t shocks_t controls_t parameters : Env) (k : String) :
    (Env.get (((parameters.pyUnion states_t).pyUnion shocks_t).pyUnion
        controls_t) k
      = ((Env.get controls_t k).orElse (fun _ =>
          (Env.get shocks_t k).orElse (fun _ =>
            (Env.get states_t k).orElse (fun _ => Env.get parameters k)))))
    ∧ (Env.get ((parameters.pyUnion states_t).pyUnion shocks_t) k
      = ((Env.get shocks_t k).orElse (fun _ =>
          (Env.get states_t k).orElse (fun _ => Env.get parameters k))))
    ∧ create_transition_function block state_syms states_t shocks_t controls_t
        parameters
      = extractSyms (block.transition
          (((parameters.pyUnion states_t).pyUnion shocks_t).pyUnion controls_t)
          [] (controls_t.map Prod.fst)) state_syms
    ∧ create_decision_function block drs states_t shocks_t parameters
      = extractSyms (block.transition
          ((parameters.pyUnion states_t).pyUnion shocks_t) drs [])
          (drs.map Prod.fst)
    ∧ create_reward_function block agent states_t shocks_t controls_t
        parameters
      = extractSyms (block.transition
          (((parameters.pyUnion states_t).pyUnion shocks_t).pyUnion controls_t)
          [] (controls_t.map Prod.fst)) (matchingRewardSyms block agent) := by
  refine ⟨?_, ?_, rfl, rfl, rfl⟩
  · simp only [pyUnion_get]
  · simp only [pyUnion_get]

/-! ### Lemmas about the loss constructor's batch encoding -/

theorem zip_take_len {β : Type} (ks : List String) (vs : List β) :
    ks.zip vs = ks.zip (vs.take ks.length) := by
  induction ks generalizing vs with
  | nil => simp
  | cons k0 rest ih =>
    cases vs with
    | nil => simp
    | cons v0 vrest =>
      rw [List.zip_cons_cons]
      conv_rhs => rw [show ((v0 :: vrest).take (k0 :: rest).length)
          = v0 :: vrest.take rest.length from rfl, List.zip_cons_cons]
      rw [← ih]

theorem dictZip_get (ks : List String) (vs : List Value) (k : String)
    (hnd : ks.Nodup) :
    Env.get (dictZip ks vs) k = alookup (ks.zip vs) k := by
  apply alookup_reverse
  rw [map_fst_zip_take]
  exact ((List.take_sublist _ _).nodup) hnd

theorem extract_dictZip (ks : List String) (vs : List Value)
    (syms : List String) (hnd : ks.Nodup) :
    extractSyms (dictZip ks vs) syms = extractSyms (ks.zip vs) syms :=
  extractSyms_congr _ _ _ (fun s _ => dictZip_get ks vs s hnd)

theorem alookup_zip_drop_none (ks : List String) (vs : List Value) (k : String)
    (hnd : ks.Nodup) (hk : k ∈ ks.drop vs.length) :
    alookup (ks.zip vs) k = none := by
  apply (alookup_eq_none_iff _ _).mpr
  rw [map_fst_zip_take]
  exact fun hmem => List.disjoint_take_drop hnd le_rfl hmem hk

theorem alookup_zip_some_of_mem {β : Type} (ks : List String) (vs : List β)
    (k : String) (hlen : ks.length = vs.length) (hk : k ∈ ks) :
    (alookup (ks.zip vs) k).isSome := by
  induction ks generalizing vs with
  | nil => simp at hk
  | cons k0 rest ih =>
    cases vs with
    | nil => simp at hlen
    | cons v0 vrest =>
      rw [List.zip_cons_cons]
      show (alookup ((k0, v0) :: rest.zip vrest) k).isSome
      by_cases h : k0 = k
      · simp [alookup, h]
      · rcases List.mem_cons.mp hk with h2 | h2
        · exact absurd h2.symm h
        · simpa [alookup, h] using ih vrest (by simpa using hlen) h2

theorem timeSym_mem_bigT (svars : List String) (big_t : ℕ) (sym : String)
    (t : ℕ) (hs : sym ∈ svars) (ht : t < big_t) :
    timeSym sym t ∈ bigTShockSyms svars big_t := by
  rw [bigTShockSyms]
  rw [List.mem_flatten]
  exact ⟨svars.map (fun s => timeSym s t),
    List.mem_map_of_mem _ (List.mem_range.mpr ht), List.mem_map_of_mem _ hs⟩

theorem stackOne_map (env : Env) (sym : String) (f : ℕ → Value) :
    ∀ ts : List ℕ, (∀ t ∈ ts, Env.get env (timeSym sym t) = some (f t)) →
      stackOne env sym ts = .ok (ts.map f) := by
  intro ts
  induction ts with
  | nil => intro _; rfl
  | cons t rest ih =>
    intro h
    have ht := h t (by simp)
    have hrest := ih (fun t2 ht2 => h t2 (by simp [ht2]))
    simp [stackOne, ht, hrest]

theorem stackOne_ok (env : Env) (sym : String) (ts : List ℕ)
    (h : ∀ t ∈ ts, (Env.get env (timeSym sym t)).isSome) :
    ∃ vs, stackOne env sym ts = .ok vs := by
  induction ts with
  | nil => exact ⟨[], rfl⟩
  | cons t rest ih =>
    obtain ⟨v, hv⟩ := Option.isSome_iff_exists.mp (h t (by simp))
    obtain ⟨vs, hvs⟩ := ih (fun t2 ht2 => h t2 (by simp [ht2]))
    exact ⟨v :: vs, by simp [stackOne, hv, hvs]⟩

theorem stackShocks_ok (env : Env) (svars : List String) (big_t : ℕ)
    (h : ∀ sym ∈ svars, ∀ t ∈ List.range big_t,
      (Env.get env (timeSym sym t)).isSome) :
    ∃ out, stackShocks env svars big_t = .ok out := by
  induction svars with
  | nil => exact ⟨[], rfl⟩
  | cons sym rest ih =>
    obtain ⟨vs, hvs⟩ := stackOne_ok env sym (List.range big_t)
      (fun t ht => h sym (by simp) t ht)
    obtain ⟨out, hout⟩ := ih (fun s hs t ht => h s (by simp [hs]) t ht)
    exact ⟨(sym, vs) :: out, by simp [stackShocks, hvs, hout]⟩

theorem map_getD_range (l : List Value) (d : Value) :
    (List.range l.length).map (fun t => l.getD t d) = l := by
  induction l with
  | nil => rfl
  | cons x rest ih =>
    rw [show (x :: rest).length = rest.length + 1 from rfl,
      List.range_succ_eq_map, List.map_cons, List.map_map]
    show x :: (List.range rest.length).map
        ((fun t => (x :: rest).getD t d) ∘ Nat.succ) = x :: rest
    rw [show ((fun t => (x :: rest).getD t d) ∘ Nat.succ)
        = fun t => rest.getD t d from rfl, ih]

/-- One period's worth of time-indexed symbols appended on the right. -/
theorem bigT_succ (svars : List String) (T : ℕ) :
    bigTShockSyms svars (T + 1)
      = bigTShockSyms svars T ++ svars.map (fun sym => timeSym sym T) := by
  simp [bigTShockSyms, List.range_succ]

/-- The flat batch layout of a shock schedule: for each period `t` in
order, the period-`t` entry of each shock symbol in declaration order —
the layout `bigTShockSyms` expects. -/
def flattenShocks (σ : List (String × List Value)) (big_t : ℕ) : List Value :=
  ((List.range big_t).map (fun t =>
    σ.map (fun p => p.2.getD t (Value.scalar .nan)))).flatten

theorem flattenShocks_succ (σ : List (String × List Value)) (T : ℕ) :
    flattenShocks σ (T + 1)
      = flattenShocks σ T
        ++ σ.map (fun p => p.2.getD T (Value.scalar .nan)) := by
  simp [flattenShocks, List.range_succ]

theorem bigT_flat_length (svars : List String) (σ : List (String × List Value))
    (hkeys : σ.map Prod.fst = svars) (T : ℕ) :
    (bigTShockSyms svars T).length = (flattenShocks σ T).length := by
  induction T with
  | zero => rfl
  | succ T ih =>
    rw [bigT_succ, flattenShocks_succ, List.length_append, List.length_append,
      ih, List.length_map, List.length_map]
    have : svars.length = σ.length := by rw [← hkeys, List.length_map]
    omega

theorem alookup_map_mem {A β : Type} (l : List A) (f : A → String) (g : A → β)
    (hnd : (l.map f).Nodup) (a : A) (ha : a ∈ l) :
    alookup (l.map (fun x => (f x, g x))) (f a) = some (g a) := by
  induction l with
  | nil => simp at ha
  | cons x rest ih =>
    simp only [List.map_cons, List.nodup_cons] at hnd
    rcases List.mem_cons.mp ha with h | h
    · subst h
      simp [alookup]
    · have hne : f x ≠ f a := fun hEq =>
        hnd.1 (hEq ▸ List.mem_map_of_mem f h)
      simpa [alookup, hne] using ih hnd.2 h

/-- Looking up a time-indexed symbol in the zipped (symbols, flat batch)
environment recovers exactly the original per-symbol entry at that
period. -/
theorem alookup_zipBig (svars : List String) (σ : List (String × List Value))
    (hkeys : σ.map Prod.fst = svars) :
    ∀ T, (bigTShockSyms svars T).Nodup →
      ∀ p ∈ σ, ∀ t, t < T →
        alookup ((bigTShockSyms svars T).zip (flattenShocks σ T)) (timeSym p.1 t)
          = some (p.2.getD t (Value.scalar .nan)) := by
  intro T
  induction T with
  | zero => intro _ p _ t ht; omega
  | succ T ih =>
    intro hnd p hp t ht
    rw [bigT_succ, flattenShocks_succ,
      List.zip_append (bigT_flat_length svars σ hkeys T), alookup_append]
    rw [bigT_succ] at hnd
    rw [List.nodup_append] at hnd
    by_cases htT : t < T
    · rw [ih hnd.1 p hp t htT]
      rfl
    · have ht' : t = T := by omega
      subst ht'
      have hmemchunk : timeSym p.1 t ∈ svars.map (fun sym => timeSym sym t) := by
        rw [← hkeys, List.map_map]
        exact List.mem_map_of_mem _ hp
      have hnotbig : timeSym p.1 t ∉ bigTShockSyms svars t := fun hmem =>
        hnd.2.2 hmem hmemchunk
      rw [alookup_zip_none _ _ _ hnotbig]
      have hchunk : (svars.map (fun sym => timeSym sym t)).zip
            (σ.map (fun q => q.2.getD t (Value.scalar .nan)))
          = σ.map (fun q => (timeSym q.1 t, q.2.getD t (Value.scalar .nan))) := by
        rw [← hkeys, List.map_map]
        exact List.zip_map' _ _ σ
      have hndchunk : (σ.map (fun q => timeSym q.1 t)).Nodup := by
        have := hnd.2.1
        rw [← hkeys, List.map_map] at this
        exact this
      rw [hchunk]
      have := alookup_map_mem σ (fun q => timeSym q.1 t)
        (fun q => q.2.getD t (Value.scalar .nan)) hndchunk p hp
      simp only [this]
      rfl

theorem stackShocks_roundtrip
    (σfull : List (String × List Value)) (T : ℕ)
    (env : Env)
    (henv : ∀ p ∈ σfull, ∀ t, t < T →
      Env.get env (timeSym p.1 t) = some (p.2.getD t (Value.scalar .nan))) :
    ∀ σ : List (String × List Value), (∀ p ∈ σ, p ∈ σfull) →
      (∀ p ∈ σ, p.2.length = T) →
      stackShocks env (σ.map Prod.fst) T = .ok σ := by
  intro σ
  induction σ with
  | nil => intro _ _; rfl
  | cons p rest ih =>
    intro hsub hlen
    have hlp : p.2.length = T := hlen p (by simp)
    have h1 : stackOne env p.1 (List.range T) = .ok p.2 := by
      rw [stackOne_map env p.1 (fun t => p.2.getD t (Value.scalar .nan))
        (List.range T)
        (fun t ht => henv p (hsub p (by simp)) t (List.mem_range.mp ht))]
      rw [← hlp, map_getD_range]
    have h2 := ih (fun q hq => hsub q (by simp [hq]))
      (fun q hq => hlen q (by simp [hq]))
    simp [stackShocks, h1, h2]

/-- C4 (amended): input batches SHORTER than the expected symbol count
fail with a KeyError on a missing symbol, but batches LONGER than the
expected count are NOT rejected: `dict(zip(...))` silently drops the
extra entries, so the loss is computed from the prefix of the batch. -/
theorem c4_batch_length_behavior (state_variables : List String)
    (block : Block) (discount_factor : Discount) (big_t : ℕ)
    (parameters : Env) (setOrder : List String → List String) (df : Dr)
    (input : List Value)
    (hnd : (state_variables ++ bigTShockSyms block.shocks big_t).Nodup) :
    (input.length
        < (state_variables ++ bigTShockSyms block.shocks big_t).length →
      ∃ s, get_estimated_discounted_lifetime_reward_loss state_variables block
          discount_factor big_t parameters setOrder df input
        = .error (.keyError s))
    ∧ get_estimated_discounted_lifetime_reward_loss state_variables block
        discount_factor big_t parameters setOrder df input
      = get_estimated_discounted_lifetime_reward_loss state_variables block
          discount_factor big_t parameters setOrder df
          (input.take
            (state_variables ++ bigTShockSyms block.shocks big_t).length) := by
  constructor
  · intro hshort
    have hdropne : (state_variables
        ++ bigTShockSyms block.shocks big_t).drop input.length ≠ [] := by
      rw [Ne, List.drop_eq_nil_iff]
      omega
    obtain ⟨k0, hk0⟩ := List.exists_mem_of_ne_nil _ hdropne
    have hk0none : Env.get (dictZip
        (state_variables ++ bigTShockSyms block.shocks big_t) input) k0
        = none := by
      rw [dictZip_get _ _ _ hnd]
      exact alookup_zip_drop_none _ _ _ hnd hk0
    have hk0mem := List.mem_of_mem_drop hk0
    by_cases hbig : ∀ s ∈ bigTShockSyms block.shocks big_t,
        (Env.get (dictZip
          (state_variables ++ bigTShockSyms block.shocks big_t) input)
          s).isSome
    · have hk0sv : k0 ∈ state_variables := by
        rcases List.mem_append.mp hk0mem with h | h
        · exact h
        · have := hbig k0 h
          rw [hk0none] at this
          simp at this
      have h1 := extractSyms_ok
        (dictZip (state_variables ++ bigTShockSyms block.shocks big_t) input)
        (bigTShockSyms block.shocks big_t) hbig
      have hstack : ∀ sym ∈ block.shocks, ∀ t ∈ List.range big_t,
          (Env.get ((bigTShockSyms block.shocks big_t).map (fun s =>
            (s, (Env.get (dictZip
              (state_variables ++ bigTShockSyms block.shocks big_t) input)
              s).getD (Value.scalar .nan)))) (timeSym sym t)).isSome := by
        intro sym hsym t ht
        have hmem := timeSym_mem_bigT block.shocks big_t sym t hsym
          (List.mem_range.mp ht)
        show (alookup _ _).isSome
        rw [alookup_map_self]
        simp [hmem]
      obtain ⟨out, hout⟩ := stackShocks_ok _ block.shocks big_t hstack
      obtain ⟨s2, hs2⟩ := extractSyms_error_of_missing
        (dictZip (state_variables ++ bigTShockSyms block.shocks big_t) input)
        state_variables k0 hk0sv hk0none
      refine ⟨s2, ?_⟩
      simp only [get_estimated_discounted_lifetime_reward_loss]
      simp only [h1, hout, hs2]
    · push_neg at hbig
      obtain ⟨s, hs, hnone⟩ := hbig
      have hnone2 : Env.get (dictZip
          (state_variables ++ bigTShockSyms block.shocks big_t) input) s
          = none := by
        cases h : Env.get (dictZip
            (state_variables ++ bigTShockSyms block.shocks big_t) input) s with
        | none => rfl
        | some v => rw [h] at hnone; simp at hnone
      obtain ⟨s2, hs2⟩ := extractSyms_error_of_missing
        (dictZip (state_variables ++ bigTShockSyms block.shocks big_t) input)
        (bigTShockSyms block.shocks big_t) s hs hnone2
      refine ⟨s2, ?_⟩
      simp only [get_estimated_discounted_lifetime_reward_loss]
      simp only [hs2]
  · have htrunc : dictZip
        (state_variables ++ bigTShockSyms block.shocks big_t) input
        = dictZip (state_variables ++ bigTShockSyms block.shocks big_t)
          (input.take
            (state_variables ++ bigTShockSyms block.shocks big_t).length) := by
      rw [dictZip, dictZip, zip_take_len]
    simp only [get_estimated_discounted_lifetime_reward_loss]
    rw [htrunc]

/-- A block with one shock symbol `s` and a single reward symbol `u`
taking the constant value 2; its transition also produces a state `x`. -/
def oneShockBlock : Block where
  reward := [("u", "a1")]
  shocks := ["s"]
  controls := []
  dynamics := []
  transition := fun _ _ _ => [("u", .scalar (.fin 2)), ("x", .scalar (.fin 0))]

theorem c4_witness :
    (["x"] ++ bigTShockSyms oneShockBlock.shocks 1).Nodup
    ∧ (([] : List Value).length
        < (["x"] ++ bigTShockSyms oneShockBlock.shocks 1).length)
    ∧ ∃ s, get_estimated_discounted_lifetime_reward_loss ["x"] oneShockBlock
        (.const 1) 1 [] id (.fn fun _ _ _ => []) []
      = .error (.keyError s) := by
  refine ⟨by decide, by decide, ?_⟩
  exact (c4_batch_length_behavior ["x"] oneShockBlock (.const 1) 1 [] id
    (.fn fun _ _ _ => []) [] (by decide)).1 (by decide)

/-- C4 counterexample: an input batch with MORE entries than the expected
symbol count (3 entries where 2 symbols are expected) does not raise: the
extra entry is silently ignored and a numeric loss is returned. -/
theorem c4_counterexample :
    get_estimated_discounted_lifetime_reward_loss ["x"] oneShockBlock
        (.const 1) 1 [] id (.fn fun _ _ _ => [])
        [.scalar (.fin 0), .scalar (.fin 9), .scalar (.fin 77)]
      = .ok (.scalar (.fin (-2))) := by
  have h : get_estimated_discounted_lifetime_reward_loss ["x"] oneShockBlock
      (.const 1) 1 [] id (.fn fun _ _ _ => [])
      [.scalar (.fin 0), .scalar (.fin 9), .scalar (.fin 77)]
    = .ok (.scalar (.fin (-((0 : ℚ) + 2 * (1 : ℚ) ^ (0 : ℕ))))) := rfl
  rw [h]
  norm_num

/-- C5: a flat input batch laid out as the expected symbols
`[state_syms..., time-indexed shock symbols...]` (in the construction
order of `bigTShockSyms`: period-major) round-trips: the loss closure's
unflattening recovers exactly the named initial-state values and the
per-shock-symbol time series it was built from, and the returned loss is
the negation of `estimate_discounted_lifetime_reward` applied to those
recovered values. -/
theorem c5_loss_roundtrip (block : Block) (discount_factor : Discount)
    (setOrder : List String → List String) (parameters : Env)
    (state_variables : List String) (big_t : ℕ)
    (σ : List (String × List Value)) (hkeys : σ.map Prod.fst = block.shocks)
    (hlen : ∀ p ∈ σ, p.2.length = big_t)
    (svals : List Value) (hsv : state_variables.length = svals.length)
    (hnd : (state_variables ++ bigTShockSyms block.shocks big_t).Nodup)
    (df : Dr) :
    get_estimated_discounted_lifetime_reward_loss state_variables block
        discount_factor big_t parameters setOrder df
        (svals ++ flattenShocks σ big_t)
      = Except.map Value.neg
          (estimate_discounted_lifetime_reward block discount_factor df
            (state_variables.zip svals) big_t (some σ) parameters none
            setOrder) := by
  have hnd' := hnd
  rw [List.nodup_append] at hnd'
  have hE : (state_variables ++ bigTShockSyms block.shocks big_t).zip
        (svals ++ flattenShocks σ big_t)
      = state_variables.zip svals
        ++ (bigTShockSyms block.shocks big_t).zip (flattenShocks σ big_t) :=
    List.zip_append hsv
  have hleft : ∀ s ∈ bigTShockSyms block.shocks big_t,
      Env.get (state_variables.zip svals) s = none := fun s hs =>
    alookup_zip_none _ _ _ (fun hmem => hnd'.2.2 hmem hs)
  have h1 : extractSyms
      (dictZip (state_variables ++ bigTShockSyms block.shocks big_t)
        (svals ++ flattenShocks σ big_t))
      (bigTShockSyms block.shocks big_t)
      = .ok ((bigTShockSyms block.shocks big_t).zip
          (flattenShocks σ big_t)) := by
    rw [extract_dictZip _ _ _ hnd, hE,
      extractSyms_append_env_left _ _ _ hleft,
      extract_zip_self _ _ hnd'.2.1 (bigT_flat_length _ _ hkeys _)]
  have h2 : stackShocks
      ((bigTShockSyms block.shocks big_t).zip (flattenShocks σ big_t))
      block.shocks big_t = .ok σ := by
    have hrt := stackShocks_roundtrip σ big_t
      ((bigTShockSyms block.shocks big_t).zip (flattenShocks σ big_t))
      (fun p hp t ht =>
        alookup_zipBig block.shocks σ hkeys big_t hnd'.2.1 p hp t ht)
      σ (fun p hp => hp) hlen
    rw [hkeys] at hrt
    exact hrt
  have hright : ∀ s ∈ state_variables,
      (Env.get (state_variables.zip svals) s).isSome := fun s hs =>
    alookup_zip_some_of_mem _ _ _ hsv hs
  have h3 : extractSyms
      (dictZip (state_variables ++ bigTShockSyms block.shocks big_t)
        (svals ++ flattenShocks σ big_t)) state_variables
      = .ok (state_variables.zip svals) := by
    rw [extract_dictZip _ _ _ hnd, hE,
      extractSyms_append_env_right _ _ _ hright,
      extract_zip_self _ _ hnd'.1 hsv]
  simp only [get_estimated_discounted_lifetime_reward_loss]
  simp only [h1, h2, h3]
  cases h : estimate_discounted_lifetime_reward block discount_factor df
      (state_variables.zip svals) big_t (some σ) parameters none setOrder with
  | error e => simp [Except.map]
  | ok v => simp [Except.map]

theorem c5_witness :
    get_estimated_discounted_lifetime_reward_loss ["x"] oneShockBlock
        (.const 1) 1 [] id (.fn fun _ _ _ => [])
        ([.scalar (.fin 4)] ++ flattenShocks [("s", [.scalar (.fin 9)])] 1)
      = Except.map Value.neg
          (estimate_discounted_lifetime_reward oneShockBlock (.const 1)
            (.fn fun _ _ _ => []) (["x"].zip [.scalar (.fin 4)]) 1
            (some [("s", [.scalar (.fin 9)])]) [] none id) :=
  c5_loss_roundtrip oneShockBlock (.const 1) id [] ["x"] 1
    [("s", [.scalar (.fin 9)])] rfl (by decide) [.scalar (.fin 4)] rfl
    (by decide) (.fn fun _ _ _ => [])

end SkAgent
